import Mathlib

/-!
Verification of the schema-driven attribute builder of the Bootie model layer
(src/model.js). JavaScript values are modelled by the inductive type `JSVal`;
the builder `buildAttributes` and the schema merge `combinedSchema` are shallow
embeddings of the corresponding functions in src/model.js, translated branch by
branch. Lodash predicates (`_.isObject`, `_.isEmpty`, ...) are modelled by the
`...JS` helper functions below.
-/

/-- Model of a JavaScript (JSON-like) runtime value. Objects are association
lists of string keys (JS object keys are unique; where uniqueness matters,
theorems carry an explicit `Nodup` hypothesis). The `date` constructor models a
JS `Date` instance (payload: milliseconds). `NaN` never has to be stored: the
source checks `_.isNaN` immediately after parsing, which is modelled by
`Option` results of the parse functions. -/
inductive JSVal : Type where
  | null
  | undefined
  | bool (b : Bool)
  | num (q : ℚ)
  | str (s : String)
  | arr (elems : List JSVal)
  | obj (fields : List (String × JSVal))
  | date (ms : ℤ)

/-- Lodash `_.isObject`: true for objects, arrays and dates, false for
primitives, `null` and `undefined`. -/
def isObjectJS : JSVal → Bool
  | .obj _ => true
  | .arr _ => true
  | .date _ => true
  | _ => false

/-- Lodash `_.isEmpty`: arrays/objects/strings are empty iff they have no
elements, keys or characters; `null`, `undefined`, booleans, numbers and
dates are always empty. -/
def isEmptyJS : JSVal → Bool
  | .arr es => es.isEmpty
  | .obj fs => fs.isEmpty
  | .str s => s.isEmpty
  | _ => true

/-- Lodash `_.isNull`. -/
def isNullJS : JSVal → Bool
  | .null => true
  | _ => false

/-- Lodash `_.isUndefined`. -/
def isUndefJS : JSVal → Bool
  | .undefined => true
  | _ => false

/-- Lodash `_.isString`. -/
def isStringJS : JSVal → Bool
  | .str _ => true
  | _ => false

/-- Lodash `_.isBoolean`. -/
def isBooleanJS : JSVal → Bool
  | .bool _ => true
  | _ => false

/-- Lodash `_.isNumber`. -/
def isNumberJS : JSVal → Bool
  | .num _ => true
  | _ => false

/-- Lodash `_.isDate`. -/
def isDateJS : JSVal → Bool
  | .date _ => true
  | _ => false

/-- The strict comparison `v === true` used by the ignored-key check
(src/model.js line 146). Only the boolean `true` passes. -/
def isTrueJS : JSVal → Bool
  | .bool b => b
  | _ => false

/-- The strict comparison `v === ''` used by the empty-string checks of the
numeric and timestamp coercers (src/model.js lines 228, 242, 284). -/
def isEmptyStrJS : JSVal → Bool
  | .str s => s.isEmpty
  | _ => false

/-- JavaScript truthiness, as used by `jsonVal || attrsVal`
(src/model.js line 178). Note that empty arrays and empty objects are truthy.
`NaN` (falsy in JS) does not occur in the model, see `JSVal`. -/
def jsTruthy : JSVal → Bool
  | .null => false
  | .undefined => false
  | .bool b => b
  | .num q => !(q = 0 : Bool)
  | .str s => !s.isEmpty
  | .arr _ => true
  | .obj _ => true
  | .date _ => true

/-- JavaScript property access `v[k]`: `undefined` when the key is absent.
For arrays, a numeric string indexes the elements. -/
def objGet (v : JSVal) (k : String) : JSVal :=
  match v with
  | .obj fs => (fs.lookup k).getD .undefined
  | .arr es =>
    match k.toNat? with
    | some i => (es.get? i).getD .undefined
    | none => .undefined
  | _ => .undefined

/-- The per-key normalization `_.isObject(x) ? x[key] : null` applied to all
four inputs at the top of the `_.each` callback (src/model.js lines 140-143). -/
def keyVal (x : JSVal) (k : String) : JSVal :=
  if isObjectJS x then objGet x k else .null

/-- Keys of an object value (empty for any other value). -/
def objKeys : JSVal → List String
  | .obj fs => fs.map Prod.fst
  | _ => []

/-- The repeated fallback expression
`!_.isUndefined(attrsVal) ? attrsVal : (!_.isUndefined(defaultsVal) ? defaultsVal : z)`
of src/model.js (lines 153-155, 167-169, 206-208, and the leaf coercers). -/
def fallbackChain (attrsVal defaultsVal z : JSVal) : JSVal :=
  if !isUndefJS attrsVal then attrsVal
  else if !isUndefJS defaultsVal then defaultsVal
  else z

/-- Truncation toward zero, the rounding used by `parseInt` on the decimal
string rendering of a number (e.g. `parseInt(String(-2.5)) = -2`). -/
def ratTrunc (q : ℚ) : ℤ :=
  q.num.tdiv (q.den : ℤ)

/-- Characters skipped by `parseInt`/`parseFloat` before the number. -/
def isWsChar (c : Char) : Bool :=
  c = ' ' || c = '\t' || c = '\n' || c = '\r'

/-- Value of a list of decimal digit characters. -/
def digitsToNat (ds : List Char) : ℕ :=
  ds.foldl (fun acc c => acc * 10 + (c.toNat - '0'.toNat)) 0

/-- Native JS `parseInt(s, 10)` on a string (as invoked by lodash
`_.parseInt`): skip leading whitespace, optional sign, then the longest run of
decimal digits; `NaN` (here `none`) when there is no digit. -/
def parseIntStr (s : String) : Option ℤ :=
  let cs := s.toList.dropWhile isWsChar
  let signed : ℤ × List Char :=
    match cs with
    | '-' :: rest => (-1, rest)
    | '+' :: rest => (1, rest)
    | _ => (1, cs)
  let digits := signed.2.takeWhile Char.isDigit
  if digits.isEmpty then none
  else some (signed.1 * (digitsToNat digits : ℤ))

/-- Native JS `parseFloat(s)`: skip leading whitespace, optional sign, longest
prefix of the form `digits [. digits] [e [sign] digits]` (a bare `.` or a
malformed exponent is not consumed); `NaN` (here `none`) when neither integer
nor fraction digits are present. -/
def parseFloatStr (s : String) : Option ℚ :=
  let cs := s.toList.dropWhile isWsChar
  let signed : ℚ × List Char :=
    match cs with
    | '-' :: rest => (-1, rest)
    | '+' :: rest => (1, rest)
    | _ => (1, cs)
  let intDigits := signed.2.takeWhile Char.isDigit
  let rest1 := signed.2.dropWhile Char.isDigit
  let fracDigits : List Char :=
    match rest1 with
    | '.' :: r => r.takeWhile Char.isDigit
    | _ => []
  let rest2 : List Char :=
    match rest1 with
    | '.' :: r => r.dropWhile Char.isDigit
    | _ => rest1
  if intDigits.isEmpty && fracDigits.isEmpty then none
  else
    let mant : ℚ :=
      (digitsToNat intDigits : ℚ) +
        (digitsToNat fracDigits : ℚ) / ((10 : ℚ) ^ fracDigits.length)
    let expo : ℤ :=
      match rest2 with
      | 'e' :: r | 'E' :: r =>
        let se : ℤ × List Char :=
          match r with
          | '-' :: r2 => (-1, r2)
          | '+' :: r2 => (1, r2)
          | _ => (1, r)
        let eds := se.2.takeWhile Char.isDigit
        if eds.isEmpty then 0 else se.1 * (digitsToNat eds : ℤ)
      | _ => 0
    some (signed.1 * mant * (10 : ℚ) ^ expo)

/-- Leading decimal digit of a positive natural number (the fuel argument is an
upper bound on the digit count; the initial call passes the number itself,
which always suffices). -/
def leadDigitAux : ℕ → ℕ → ℕ
  | 0, n => n
  | fuel + 1, n => if n < 10 then n else leadDigitAux fuel (n / 10)

/-- Leading decimal digit of a natural number. -/
def leadDigitNat (n : ℕ) : ℕ :=
  leadDigitAux n n

/-- First significant decimal digit of a rational in `(0, 1)`: scale by 10
until the value reaches `[1, 10)` and truncate. The fuel bounds the number of
leading zeros; the callers pass the denominator, which always suffices
(the smallest scaling power is at most the denominator). -/
def fracLeadDigitAux : ℕ → ℚ → ℤ
  | 0, _ => 0
  | fuel + 1, a => if 1 ≤ a then ratTrunc a else fracLeadDigitAux fuel (10 * a)

/-- What native `parseInt(String(n), 10)` returns on a JS number `n`.
`String` renders `0` and magnitudes in `[1e-6, 1e21)` in positional notation,
where `parseInt` reads the integer digits, i.e. truncation toward zero. Outside
that range `String` uses exponential notation `d.ddd...e±k` with mantissa in
`[1, 10)`, and `parseInt` stops at the `.` or `e`: the result is only the
signed leading significant digit (e.g. `parseInt(String(1e21)) = 1`). -/
def jsNumToParsedInt (q : ℚ) : ℤ :=
  if q = 0 then 0
  else if q.den ≤ 10 ^ 6 * q.num.natAbs ∧ q.num.natAbs < 10 ^ 21 * q.den then
    ratTrunc q
  else
    let d : ℤ :=
      if 1 ≤ |q| then (leadDigitNat (q.num.natAbs / q.den) : ℤ)
      else fracLeadDigitAux q.den |q|
    if q < 0 then -d else d

/-- Lodash `_.parseInt(v)`: converts the argument to a string and parses it in
base 10. A number round-trips through `String(n)` (see `jsNumToParsedInt`:
truncation toward zero in the positional range, the signed leading significant
digit when `String` renders exponentially); strings are parsed by
`parseIntStr`; `String(null)`, `String(undefined)`, `String(true)`, dates and
plain objects have no leading digits, hence `NaN` (`none`). Stringification of
arrays whose join happens to start with digits is outside the modelled range
(no claim exercises array inputs at numeric leaves at the value level). -/
def jsParseInt : JSVal → Option ℤ
  | .num q => some (jsNumToParsedInt q)
  | .str s => parseIntStr s
  | _ => none

/-- Modelled from the spec: `_.parseFloat` is a lodash mixin whose source is
not under src/; per the spec (section 4.3) it parses the raw value to a finite
number, i.e. native JS `parseFloat(String(v))`. A number reparses to itself;
strings are parsed by `parseFloatStr`; other values stringify without a
leading number, hence `NaN` (`none`), with the same caveat on arrays as
`jsParseInt`. -/
def jsParseFloat : JSVal → Option ℚ
  | .num q => some q
  | .str s => parseFloatStr s
  | _ => none

/-- Modelled from the spec: `_.isValidISO8601String` is a lodash mixin whose
source is not under src/; per the spec (section 4.3) it recognizes ISO-8601
date strings. Modelled as a syntactic `YYYY-MM-DD...` check; no claim depends
on the exact set of accepted strings, only on the predicate holding of no
non-string value. -/
def isValidISO8601String : JSVal → Bool
  | .str s =>
    let cs := s.toList
    decide (10 ≤ cs.length) &&
    (cs.take 4).all Char.isDigit &&
    (cs.get? 4 == some '-') &&
    ((cs.drop 5).take 2).all Char.isDigit &&
    (cs.get? 7 == some '-') &&
    ((cs.drop 8).take 2).all Char.isDigit
  | _ => false

/-- The leaf-type coercion chain of `buildAttributes`
(src/model.js lines 227-311), dispatching on the schema string `val`. -/
def coerceLeaf (tag : String) (jsonVal attrsVal defaultsVal : JSVal) : JSVal :=
  if tag = "integer" || tag = "uinteger" then
    if isEmptyStrJS jsonVal then
      if !isUndefJS defaultsVal then defaultsVal else .num 0
    else
      match jsParseInt jsonVal with
      | none => fallbackChain attrsVal defaultsVal (.num 0)
      | some n => if tag = "uinteger" then .num (max n 0 : ℤ) else .num n
  else if tag = "float" || tag = "ufloat" then
    if isEmptyStrJS jsonVal then
      if !isUndefJS defaultsVal then defaultsVal else .num 0
    else
      match jsParseFloat jsonVal with
      | none => fallbackChain attrsVal defaultsVal (.num 0)
      | some q => if tag = "ufloat" then .num (max q 0) else .num q
  else if tag = "boolean" then
    if !isBooleanJS jsonVal then fallbackChain attrsVal defaultsVal (.bool false)
    else jsonVal
  else if tag = "id" then
    if !isStringJS jsonVal && !isNullJS jsonVal then
      fallbackChain attrsVal defaultsVal .null
    else jsonVal
  else if tag = "string" then
    if !isStringJS jsonVal && !isNullJS jsonVal then
      fallbackChain attrsVal defaultsVal .null
    else jsonVal
  else if tag = "timestamp" then
    if isEmptyStrJS jsonVal then
      if !isUndefJS defaultsVal then defaultsVal else .null
    else if !isNumberJS jsonVal && !isNullJS jsonVal then
      fallbackChain attrsVal defaultsVal .null
    else jsonVal
  else if tag = "date" then
    if !isValidISO8601String jsonVal && !isDateJS jsonVal && !isNullJS jsonVal then
      fallbackChain attrsVal defaultsVal .null
    else jsonVal
  else jsonVal

/-- The element sequence lodash `_.each` iterates over: array elements, object
values, or the characters of a string; nothing for primitives. Used for the
inner loop over `jsonVal` (src/model.js line 193); that loop is only reached
when `jsonVal` is non-empty, so only the first three cases ever apply there. -/
def collValues : JSVal → List JSVal
  | .arr es => es
  | .obj fs => fs.map Prod.snd
  | .str s => s.toList.map (fun c => JSVal.str c.toString)
  | _ => []

mutual

/-- Shallow embedding of `buildAttributes(schema, defaults, json, attrs,
ignoredAttrs)` (src/model.js lines 136-316): iterate over the schema keys,
building `obj` field by field. Lodash `_.each` over a non-object schema sets no
string keys on `obj` (`_.each` also walks arrays and strings with index keys;
that is outside the legal-schema range every claim quantifies over). -/
def buildAttributes (schema defaults json attrs ignoredAttrs : JSVal) : JSVal :=
  match schema with
  | .obj fs => .obj (buildEachField fs defaults json attrs ignoredAttrs)
  | _ => .obj []
termination_by (sizeOf schema, 0, 0)

/-- The `_.each(schema, function(val, key) ...)` loop body of `buildAttributes`:
per key, normalize the four per-key inputs (src/model.js lines 140-143), skip
the key when `ignoredAttrsVal === true` (line 146), otherwise emit the value
computed by `buildKeyValue`; `none` (no legal branch, lines 159-312 fall
through) emits nothing. -/
def buildEachField (l : List (String × JSVal)) (defaults json attrs ignoredAttrs : JSVal) :
    List (String × JSVal) :=
  match l with
  | [] => []
  | (k, val) :: rest =>
    let jsonVal := keyVal json k
    let defaultsVal := keyVal defaults k
    let attrsVal := keyVal attrs k
    let ignoredAttrsVal := keyVal ignoredAttrs k
    let tailFields := buildEachField rest defaults json attrs ignoredAttrs
    if isTrueJS ignoredAttrsVal then tailFields
    else
      match buildKeyValue val defaultsVal jsonVal attrsVal ignoredAttrsVal with
      | some v => (k, v) :: tailFields
      | none => tailFields
termination_by (sizeOf l, 1, 0)

/-- The per-key branch cascade of `buildAttributes` (src/model.js lines
150-312): empty-container marker, array schema, object schema, string leaf; a
schema value of any other shape sets no key (`none`). -/
def buildKeyValue (val defaultsVal jsonVal attrsVal ignoredAttrsVal : JSVal) : Option JSVal :=
  if isObjectJS val && isEmptyJS val then
    -- lines 150-157: `[]` or `{}` (or any other empty object-like) marker
    some (fallbackChain attrsVal defaultsVal (.obj []))
  else
    match val with
    | .arr [] => none  -- unreachable: `[]` is empty and taken by the marker branch
    | .arr (hd :: _) =>
      -- lines 163-201
      some (
        if isNullJS jsonVal || isUndefJS jsonVal then
          fallbackChain attrsVal defaultsVal (.arr [])
        else if isStringJS hd || isEmptyJS hd then
          if jsTruthy jsonVal then jsonVal else attrsVal
        else if isEmptyJS jsonVal then
          if !isUndefJS defaultsVal then defaultsVal else .arr []
        else
          .arr (buildArrayItems hd defaultsVal (collValues jsonVal) attrsVal ignoredAttrsVal))
    | .obj vfs =>
      -- lines 202-225 (`val` is a non-empty object here)
      some (
        if isNullJS jsonVal || isUndefJS jsonVal then
          fallbackChain attrsVal defaultsVal (.obj [])
        else if isEmptyJS jsonVal then
          if !isUndefJS defaultsVal then defaultsVal else .obj []
        else
          buildAttributes (.obj vfs) defaultsVal jsonVal attrsVal ignoredAttrsVal)
    | .str tag =>
      -- lines 226-311
      some (coerceLeaf tag jsonVal attrsVal defaultsVal)
    | _ => none
termination_by (sizeOf val, 2, 0)

/-- The inner `_.each(jsonVal, ...)` loop of the array-of-objects branch
(src/model.js lines 192-201): build each element against the element schema,
passing down the per-key defaults, attrs and mask values unchanged. -/
def buildArrayItems (elemSchema defaultsVal : JSVal) (items : List JSVal)
    (attrsVal ignoredAttrsVal : JSVal) : List JSVal :=
  match items with
  | [] => []
  | x :: rest =>
    buildAttributes elemSchema defaultsVal x attrsVal ignoredAttrsVal ::
      buildArrayItems elemSchema defaultsVal rest attrsVal ignoredAttrsVal
termination_by (sizeOf elemSchema, 3, items.length)

end

mutual

/-- Lodash `baseMergeDeep` on a single property: an `undefined` source value
keeps the destination value; two objects or two arrays merge recursively;
otherwise the source value wins. -/
def mergeValue (d s : JSVal) : JSVal :=
  if isUndefJS s then d
  else
    match d, s with
    | .obj df, .obj sf => .obj (mergeFieldsJS df sf)
    | .arr da, .arr sa => .arr (mergeElems da sa)
    | _, s => s
termination_by (sizeOf d, 0)

/-- Lodash `_.merge` on the field lists of two objects: destination keys keep
their positions (merged with the source value when the source also has the
key), then source-only keys are appended in source order. -/
def mergeFieldsJS (df sf : List (String × JSVal)) : List (String × JSVal) :=
  mergeInto df sf ++ sf.filter (fun p => !df.any (fun q => q.1 = p.1))
termination_by (sizeOf df, 2)

/-- The pass of `_.merge` over the destination fields, overriding each with the
merged source value when present. -/
def mergeInto (df sf : List (String × JSVal)) : List (String × JSVal) :=
  match df with
  | [] => []
  | (k, v) :: rest =>
    let merged :=
      match List.lookup k sf with
      | some sv => mergeValue v sv
      | none => v
    (k, merged) :: mergeInto rest sf
termination_by (sizeOf df, 1)

/-- Index-wise merge of two arrays, as lodash `_.merge` does for array
properties: positions present in both merge element-wise, the longer tail is
kept. -/
def mergeElems (da sa : List JSVal) : List JSVal :=
  match da, sa with
  | [], sa => sa
  | da, [] => da
  | x :: xs, y :: ys => mergeValue x y :: mergeElems xs ys
termination_by (sizeOf da, 1)

end

/-- Shallow embedding of `combinedSchema` (src/model.js lines 70-74):
`_.merge(schema, baseSchema)` where both are already-resolved values. -/
def combinedSchema (schema baseSchema : JSVal) : JSVal :=
  mergeValue schema baseSchema

/-- A legal schema node at its own level: a leaf-tag string, an array, or an
object (the node kinds documented in src/model.js lines 54-64). -/
def isSchemaNode : JSVal → Bool
  | .str _ => true
  | .arr _ => true
  | .obj _ => true
  | _ => false

/-- Deep legality of a schema value: the value and every value nested in it is
a legal schema node, and object schemas have unique keys (JS object literals
always do). -/
def legalSchemaVal : JSVal → Bool
  | .str _ => true
  | .arr es => es.attach.all (fun p => legalSchemaVal p.1)
  | .obj fs =>
    decide (fs.map Prod.fst).Nodup && fs.attach.all (fun p => legalSchemaVal p.1.2)
  | _ => false
termination_by v => sizeOf v
decreasing_by
  · have := List.sizeOf_lt_of_mem p.2
    cases p
    simp_all
    omega
  · have := List.sizeOf_lt_of_mem p.2
    cases p with
    | mk a h => cases a; simp_all; omega

/-- No `integer` or `uinteger` leaf tag occurs anywhere in a schema value.
These are the only leaf types coerced through lodash `_.parseInt`, whose
round-trip through `String()` collapses magnitudes outside the positional
rendering range (see `jsNumToParsedInt`); values of every other kind are
unconstrained. -/
def intFreeSchemaVal : JSVal → Bool
  | .str tag => !(tag = "integer" || tag = "uinteger")
  | .arr es => es.attach.all (fun p => intFreeSchemaVal p.1)
  | .obj fs => fs.attach.all (fun p => intFreeSchemaVal p.1.2)
  | _ => true
termination_by v => sizeOf v
decreasing_by
  · have := List.sizeOf_lt_of_mem p.2
    cases p
    simp_all
    omega
  · have := List.sizeOf_lt_of_mem p.2
    cases p with
    | mk a h => cases a; simp_all; omega

/-- Statement of the amended claim C2, following its words: with a `null` or
`undefined` json input, an array, object, empty-container, numeric or boolean
key falls back to the (normalized) attrs value if defined, else the defaults
value if defined, else the empty/zero value of the kind — while a string, id,
timestamp, date or unrecognized leaf yields `null`, because the normalized
json value `null` is an accepted value for those leaf types. -/
def specNullJsonValue (val attrsVal defaultsVal : JSVal) : JSVal :=
  if isObjectJS val && isEmptyJS val then fallbackChain attrsVal defaultsVal (.obj [])
  else
    match val with
    | .arr _ => fallbackChain attrsVal defaultsVal (.arr [])
    | .obj _ => fallbackChain attrsVal defaultsVal (.obj [])
    | .str tag =>
      if tag = "integer" || tag = "uinteger" || tag = "float" || tag = "ufloat" then
        fallbackChain attrsVal defaultsVal (.num 0)
      else if tag = "boolean" then
        fallbackChain attrsVal defaultsVal (.bool false)
      else .null
    | _ => .undefined

theorem buildEachField_nil (d j a i : JSVal) : buildEachField [] d j a i = [] := by
  simp [buildEachField]

theorem buildEachField_cons (k : String) (val : JSVal) (rest : List (String × JSVal))
    (d j a i : JSVal) :
    buildEachField ((k, val) :: rest) d j a i =
      if isTrueJS (keyVal i k) then buildEachField rest d j a i
      else
        match buildKeyValue val (keyVal d k) (keyVal j k) (keyVal a k) (keyVal i k) with
        | some v => (k, v) :: buildEachField rest d j a i
        | none => buildEachField rest d j a i := by
  rw [buildEachField]

theorem legalSchemaVal_arr_iff (es : List JSVal) :
    legalSchemaVal (.arr es) = true ↔ ∀ v ∈ es, legalSchemaVal v = true := by
  rw [legalSchemaVal]
  simp [List.all_eq_true]

theorem legalSchemaVal_obj_iff (fs : List (String × JSVal)) :
    legalSchemaVal (.obj fs) = true ↔
      (fs.map Prod.fst).Nodup ∧ ∀ p ∈ fs, legalSchemaVal p.2 = true := by
  rw [legalSchemaVal]
  simp [List.all_eq_true]

theorem intFreeSchemaVal_arr_iff (es : List JSVal) :
    intFreeSchemaVal (.arr es) = true ↔ ∀ v ∈ es, intFreeSchemaVal v = true := by
  rw [intFreeSchemaVal]
  simp [List.all_eq_true]

theorem intFreeSchemaVal_obj_iff (fs : List (String × JSVal)) :
    intFreeSchemaVal (.obj fs) = true ↔ ∀ p ∈ fs, intFreeSchemaVal p.2 = true := by
  rw [intFreeSchemaVal]
  simp [List.all_eq_true]

theorem isSchemaNode_of_legal (v : JSVal) (h : legalSchemaVal v = true) :
    isSchemaNode v = true := by
  cases v <;> simp_all [legalSchemaVal, isSchemaNode]

theorem buildKeyValue_isSome (val dv jv av iv : JSVal) (h : isSchemaNode val = true) :
    (buildKeyValue val dv jv av iv).isSome = true := by
  cases val with
  | str s =>
    rw [buildKeyValue]
    simp [isObjectJS]
  | arr es =>
    cases es with
    | nil =>
      rw [buildKeyValue]
      simp [isObjectJS, isEmptyJS]
    | cons hd tl =>
      rw [buildKeyValue]
      simp [isObjectJS, isEmptyJS]
  | obj fs =>
    cases fs with
    | nil =>
      rw [buildKeyValue]
      simp [isObjectJS, isEmptyJS]
    | cons hd tl =>
      rw [buildKeyValue]
      simp [isObjectJS, isEmptyJS]
  | null => simp [isSchemaNode] at h
  | undefined => simp [isSchemaNode] at h
  | bool b => simp [isSchemaNode] at h
  | num q => simp [isSchemaNode] at h
  | date ms => simp [isSchemaNode] at h

theorem mem_keys_buildEachField (fs : List (String × JSVal)) (d j a i : JSVal) (k : String) :
    k ∈ (buildEachField fs d j a i).map Prod.fst ↔
      ∃ val, (k, val) ∈ fs ∧ isTrueJS (keyVal i k) = false ∧
        (buildKeyValue val (keyVal d k) (keyVal j k) (keyVal a k) (keyVal i k)).isSome = true := by
  induction fs with
  | nil => simp [buildEachField_nil]
  | cons hd rest ih =>
    obtain ⟨k0, v0⟩ := hd
    rw [buildEachField_cons]
    by_cases hig : isTrueJS (keyVal i k0) = true
    · rw [if_pos hig, ih]
      constructor
      · rintro ⟨val, hm, h1, h2⟩
        exact ⟨val, List.mem_cons_of_mem _ hm, h1, h2⟩
      · rintro ⟨val, hm, h1, h2⟩
        rcases List.mem_cons.mp hm with heq | hm2
        · have hk : k = k0 := congrArg Prod.fst heq
          rw [hk] at h1
          rw [h1] at hig
          exact absurd hig Bool.false_ne_true
        · exact ⟨val, hm2, h1, h2⟩
    · have hig' : isTrueJS (keyVal i k0) = false := Bool.not_eq_true _ ▸ hig
      rw [if_neg hig]
      cases hbk : buildKeyValue v0 (keyVal d k0) (keyVal j k0) (keyVal a k0) (keyVal i k0) with
      | none =>
        rw [ih]
        constructor
        · rintro ⟨val, hm, h1, h2⟩
          exact ⟨val, List.mem_cons_of_mem _ hm, h1, h2⟩
        · rintro ⟨val, hm, h1, h2⟩
          rcases List.mem_cons.mp hm with heq | hm2
          · have hk : k = k0 := congrArg Prod.fst heq
            have hv : val = v0 := congrArg Prod.snd heq
            rw [hk, hv, hbk] at h2
            simp at h2
          · exact ⟨val, hm2, h1, h2⟩
      | some w =>
        rw [List.map_cons]
        constructor
        · intro hm
          rcases List.mem_cons.mp hm with hk | hm2
          · refine ⟨v0, by rw [hk]; exact List.mem_cons_self .., ?_, ?_⟩
            · rw [hk]
              exact hig'
            · rw [hk, hbk]
              rfl
          · obtain ⟨val, hm3, h1, h2⟩ := ih.mp hm2
            exact ⟨val, List.mem_cons_of_mem _ hm3, h1, h2⟩
        · rintro ⟨val, hm, h1, h2⟩
          rcases List.mem_cons.mp hm with heq | hm2
          · exact List.mem_cons.mpr (Or.inl (congrArg Prod.fst heq))
          · exact List.mem_cons_of_mem _ (ih.mpr ⟨val, hm2, h1, h2⟩)

theorem lookup_buildEachField (fs : List (String × JSVal)) (d j a i : JSVal)
    (k : String) (val w : JSVal)
    (hnd : (fs.map Prod.fst).Nodup) (hmem : (k, val) ∈ fs)
    (hig : isTrueJS (keyVal i k) = false)
    (hbk : buildKeyValue val (keyVal d k) (keyVal j k) (keyVal a k) (keyVal i k) = some w) :
    List.lookup k (buildEachField fs d j a i) = some w := by
  induction fs with
  | nil => simp at hmem
  | cons hd rest ih =>
    obtain ⟨k0, v0⟩ := hd
    have hnd2 : (k0 :: rest.map Prod.fst).Nodup := by
      rw [List.map_cons] at hnd
      exact hnd
    have hnd' : (rest.map Prod.fst).Nodup := (List.nodup_cons.mp hnd2).2
    rw [buildEachField_cons]
    rcases List.mem_cons.mp hmem with heq | hmem2
    · have hk : k = k0 := congrArg Prod.fst heq
      have hv : val = v0 := congrArg Prod.snd heq
      subst hk
      subst hv
      rw [if_neg (by rw [hig]; exact Bool.false_ne_true), hbk]
      simp [List.lookup]
    · have hk0 : k ≠ k0 := by
        intro hkk
        subst hkk
        exact (List.nodup_cons.mp hnd2).1
          (List.mem_map.mpr ⟨(k, val), hmem2, rfl⟩)
      by_cases hig0 : isTrueJS (keyVal i k0) = true
      · rw [if_pos hig0]
        exact ih hnd' hmem2
      · rw [if_neg hig0]
        cases hbk0 : buildKeyValue v0 (keyVal d k0) (keyVal j k0) (keyVal a k0) (keyVal i k0) with
        | none => exact ih hnd' hmem2
        | some w0 =>
          rw [List.lookup, beq_false_of_ne hk0]
          exact ih hnd' hmem2

theorem buildAttributes_obj (fs : List (String × JSVal)) (d j a i : JSVal) :
    buildAttributes (.obj fs) d j a i = .obj (buildEachField fs d j a i) := by
  simp [buildAttributes]

theorem buildKeyValue_marker (val dv jv av iv : JSVal)
    (h1 : isObjectJS val = true) (h2 : isEmptyJS val = true) :
    buildKeyValue val dv jv av iv = some (fallbackChain av dv (.obj [])) := by
  cases val with
  | arr es =>
    cases es with
    | nil => rw [buildKeyValue]; simp [isObjectJS, isEmptyJS]
    | cons hd tl => simp [isEmptyJS] at h2
  | obj fs =>
    cases fs with
    | nil => rw [buildKeyValue]; simp [isObjectJS, isEmptyJS]
    | cons hd tl => simp [isEmptyJS] at h2
  | date ms =>
    rw [buildKeyValue, if_pos (by simp [isObjectJS, isEmptyJS])]
    all_goals intros
    all_goals simp_all
  | null => simp [isObjectJS] at h1
  | undefined => simp [isObjectJS] at h1
  | bool b => simp [isObjectJS] at h1
  | num q => simp [isObjectJS] at h1
  | str s => simp [isObjectJS] at h1

theorem buildKeyValue_leaf (tag : String) (dv jv av iv : JSVal) :
    buildKeyValue (.str tag) dv jv av iv = some (coerceLeaf tag jv av dv) := by
  rw [buildKeyValue]
  simp [isObjectJS]

theorem buildKeyValue_arr_cons (hd : JSVal) (tl : List JSVal) (dv jv av iv : JSVal) :
    buildKeyValue (.arr (hd :: tl)) dv jv av iv =
      some (
        if isNullJS jv || isUndefJS jv then
          fallbackChain av dv (.arr [])
        else if isStringJS hd || isEmptyJS hd then
          if jsTruthy jv then jv else av
        else if isEmptyJS jv then
          if !isUndefJS dv then dv else .arr []
        else
          .arr (buildArrayItems hd dv (collValues jv) av iv)) := by
  rw [buildKeyValue]
  simp [isObjectJS, isEmptyJS]

theorem buildKeyValue_obj_rec (vfs : List (String × JSVal)) (dv jv av iv : JSVal)
    (hne : vfs ≠ [])
    (h1 : isNullJS jv = false) (h2 : isUndefJS jv = false) (h3 : isEmptyJS jv = false) :
    buildKeyValue (.obj vfs) dv jv av iv = some (buildAttributes (.obj vfs) dv jv av iv) := by
  rw [buildKeyValue]
  have hemp : isEmptyJS (.obj vfs) = false := by
    cases vfs with
    | nil => exact absurd rfl hne
    | cons hd tl => simp [isEmptyJS]
  simp [isObjectJS, hemp, h1, h2, h3]

theorem buildKeyValue_obj_null (vfs : List (String × JSVal)) (dv jv av iv : JSVal)
    (hne : vfs ≠ [])
    (h1 : (isNullJS jv || isUndefJS jv) = true) :
    buildKeyValue (.obj vfs) dv jv av iv = some (fallbackChain av dv (.obj [])) := by
  rw [buildKeyValue]
  have hemp : isEmptyJS (.obj vfs) = false := by
    cases vfs with
    | nil => exact absurd rfl hne
    | cons hd tl => simp [isEmptyJS]
  simp [isObjectJS, hemp, h1]

theorem objGet_build (fs : List (String × JSVal)) (d j a i : JSVal) (k : String)
    (val w : JSVal) (hnd : (fs.map Prod.fst).Nodup) (hmem : (k, val) ∈ fs)
    (hig : isTrueJS (keyVal i k) = false)
    (hbk : buildKeyValue val (keyVal d k) (keyVal j k) (keyVal a k) (keyVal i k) = some w) :
    objGet (buildAttributes (.obj fs) d j a i) k = w := by
  rw [buildAttributes_obj]
  simp only [objGet]
  rw [lookup_buildEachField fs d j a i k val w hnd hmem hig hbk]
  rfl

/-- C1: for a schema all of whose values are legal schema nodes, the key set of
`buildAttributes(schema, defaults, json, attrs, ignoredAttrs)` is exactly the
key set of the schema minus the keys whose mask value is the boolean `true`;
in particular an ignored key is absent regardless of `json`, `attrs` and
`defaults`, which the statement quantifies over unconditionally. -/
theorem buildAttributes_keyset (fs : List (String × JSVal)) (d j a i : JSVal)
    (hleg : fs.all (fun p => isSchemaNode p.2) = true) (k : String) :
    k ∈ objKeys (buildAttributes (.obj fs) d j a i) ↔
      k ∈ fs.map Prod.fst ∧ isTrueJS (keyVal i k) = false := by
  rw [buildAttributes_obj]
  simp only [objKeys]
  rw [mem_keys_buildEachField]
  constructor
  · rintro ⟨val, hm, h1, _⟩
    exact ⟨List.mem_map.mpr ⟨(k, val), hm, rfl⟩, h1⟩
  · rintro ⟨hm, h1⟩
    obtain ⟨p, hp, hpk⟩ := List.mem_map.mp hm
    obtain ⟨k', val⟩ := p
    have hk : k' = k := hpk
    subst hk
    refine ⟨val, hp, h1, buildKeyValue_isSome _ _ _ _ _ ?_⟩
    exact List.all_eq_true.mp hleg (k', val) hp

theorem buildAttributes_keyset_witness :
    ([("a", JSVal.str "string"), ("b", JSVal.str "boolean")].all
        (fun p => isSchemaNode p.2) = true) ∧
      ("a" ∈ objKeys (buildAttributes
          (.obj [("a", JSVal.str "string"), ("b", JSVal.str "boolean")])
          .null (.obj [("a", JSVal.num 3)]) .null (.obj [("b", JSVal.bool true)])) ↔
        ("a" ∈ [("a", JSVal.str "string"), ("b", JSVal.str "boolean")].map Prod.fst ∧
          isTrueJS (keyVal (.obj [("b", JSVal.bool true)]) "a") = false)) :=
  ⟨rfl, buildAttributes_keyset [("a", JSVal.str "string"), ("b", JSVal.str "boolean")]
    .null (.obj [("a", JSVal.num 3)]) .null (.obj [("b", JSVal.bool true)]) rfl "a"⟩

/-- C4: the builder is a total function of its five inputs (the model is a
Lean function, so no exception can be raised on any input), and on a schema
made of the documented node kinds it drops no field: for arbitrary,
arbitrarily-shaped `json`, `attrs`, `defaults` and mask, the result is an
object containing every schema key that is not masked with the boolean `true`
— malformed leaf values are resolved through the fallback chain and the key is
still emitted. -/
theorem buildAttributes_never_throws (fs : List (String × JSVal)) (d j a i : JSVal)
    (hleg : fs.all (fun p => isSchemaNode p.2) = true) :
    ∃ F, buildAttributes (.obj fs) d j a i = .obj F ∧
      ∀ k ∈ fs.map Prod.fst, isTrueJS (keyVal i k) = false → k ∈ F.map Prod.fst := by
  refine ⟨buildEachField fs d j a i, buildAttributes_obj fs d j a i, ?_⟩
  intro k hk hig
  rw [mem_keys_buildEachField]
  obtain ⟨p, hp, hpk⟩ := List.mem_map.mp hk
  obtain ⟨k', val⟩ := p
  have hk' : k' = k := hpk
  subst hk'
  exact ⟨val, hp, hig, buildKeyValue_isSome _ _ _ _ _
    (List.all_eq_true.mp hleg (k', val) hp)⟩

theorem buildAttributes_never_throws_witness :
    ([("n", JSVal.str "integer"), ("d", JSVal.str "date")].all
        (fun p => isSchemaNode p.2) = true) ∧
      (∃ F, buildAttributes (.obj [("n", JSVal.str "integer"), ("d", JSVal.str "date")])
          (.num 7)
          (.obj [("n", JSVal.str "abc"), ("d", JSVal.str "not-a-date")])
          (.bool false) (.str "junk") = .obj F ∧
        ∀ k ∈ [("n", JSVal.str "integer"), ("d", JSVal.str "date")].map Prod.fst,
          isTrueJS (keyVal (.str "junk") k) = false → k ∈ F.map Prod.fst) :=
  ⟨rfl, buildAttributes_never_throws [("n", JSVal.str "integer"), ("d", JSVal.str "date")]
    (.num 7) (.obj [("n", JSVal.str "abc"), ("d", JSVal.str "not-a-date")])
    (.bool false) (.str "junk") rfl⟩

/-- C10: only the strict boolean `true` in the exclusion mask suppresses a key:
whenever the mask value at a schema key is anything else (for instance `1`, a
non-empty string, or a nested mask object), the key is still built and present
in the output; and for a non-empty object schema value with a non-empty object
json value the subtree is built recursively with exactly the per-key mask value
passed down as the new mask. -/
theorem mask_requires_strict_true (fs : List (String × JSVal)) (d j a i : JSVal)
    (k : String) (val : JSVal)
    (hnd : (fs.map Prod.fst).Nodup) (hmem : (k, val) ∈ fs)
    (hnode : isSchemaNode val = true) (hig : isTrueJS (keyVal i k) = false) :
    k ∈ objKeys (buildAttributes (.obj fs) d j a i) ∧
      (∀ vfs, val = .obj vfs → vfs ≠ [] →
        isNullJS (keyVal j k) = false → isUndefJS (keyVal j k) = false →
        isEmptyJS (keyVal j k) = false →
        objGet (buildAttributes (.obj fs) d j a i) k =
          buildAttributes val (keyVal d k) (keyVal j k) (keyVal a k) (keyVal i k)) := by
  constructor
  · rw [buildAttributes_obj]
    simp only [objKeys]
    rw [mem_keys_buildEachField]
    exact ⟨val, hmem, hig, buildKeyValue_isSome _ _ _ _ _ hnode⟩
  · intro vfs hval hne h1 h2 h3
    subst hval
    exact objGet_build fs d j a i k (.obj vfs) _ hnd hmem hig
      (buildKeyValue_obj_rec vfs _ _ _ _ hne h1 h2 h3)

theorem mask_requires_strict_true_witness :
    (([("o", JSVal.obj [("x", JSVal.str "string")])].map Prod.fst).Nodup ∧
      ("o", JSVal.obj [("x", JSVal.str "string")]) ∈
        [("o", JSVal.obj [("x", JSVal.str "string")])] ∧
      isSchemaNode (JSVal.obj [("x", JSVal.str "string")]) = true ∧
      isTrueJS (keyVal (.obj [("o", JSVal.obj [("x", JSVal.bool true)])]) "o") = false) ∧
      ("o" ∈ objKeys (buildAttributes (.obj [("o", JSVal.obj [("x", JSVal.str "string")])])
          .null (.obj [("o", JSVal.obj [("x", JSVal.str "v")])]) .null
          (.obj [("o", JSVal.obj [("x", JSVal.bool true)])])) ∧
        (∀ vfs, JSVal.obj [("x", JSVal.str "string")] = JSVal.obj vfs → vfs ≠ [] →
          isNullJS (keyVal (.obj [("o", JSVal.obj [("x", JSVal.str "v")])]) "o") = false →
          isUndefJS (keyVal (.obj [("o", JSVal.obj [("x", JSVal.str "v")])]) "o") = false →
          isEmptyJS (keyVal (.obj [("o", JSVal.obj [("x", JSVal.str "v")])]) "o") = false →
          objGet (buildAttributes (.obj [("o", JSVal.obj [("x", JSVal.str "string")])])
              .null (.obj [("o", JSVal.obj [("x", JSVal.str "v")])]) .null
              (.obj [("o", JSVal.obj [("x", JSVal.bool true)])])) "o" =
            buildAttributes (JSVal.obj [("x", JSVal.str "string")])
              (keyVal .null "o")
              (keyVal (.obj [("o", JSVal.obj [("x", JSVal.str "v")])]) "o")
              (keyVal .null "o")
              (keyVal (.obj [("o", JSVal.obj [("x", JSVal.bool true)])]) "o"))) :=
  ⟨⟨by decide, by simp, rfl, rfl⟩,
    mask_requires_strict_true [("o", JSVal.obj [("x", JSVal.str "string")])]
      .null (.obj [("o", JSVal.obj [("x", JSVal.str "v")])]) .null
      (.obj [("o", JSVal.obj [("x", JSVal.bool true)])]) "o"
      (JSVal.obj [("x", JSVal.str "string")]) (by decide) (by simp) rfl rfl⟩

/-- C9 (amended): for a schema key whose value is an empty container marker
(`[]` or `{}`), the output at that key equals the normalized attrs value if
defined, else the normalized defaults value if defined, else the empty object
`{}` — for both marker kinds; the declared container kind is not consulted
(src/model.js lines 150-157 end in a literal `{}`). -/
theorem marker_key_output (fs : List (String × JSVal)) (d j a i : JSVal)
    (k : String) (val : JSVal)
    (hnd : (fs.map Prod.fst).Nodup) (hmem : (k, val) ∈ fs)
    (hig : isTrueJS (keyVal i k) = false)
    (h1 : isObjectJS val = true) (h2 : isEmptyJS val = true) :
    objGet (buildAttributes (.obj fs) d j a i) k =
      fallbackChain (keyVal a k) (keyVal d k) (.obj []) :=
  objGet_build fs d j a i k val _ hnd hmem hig
    (buildKeyValue_marker val _ _ _ _ h1 h2)

theorem marker_key_output_witness :
    (([("meta", JSVal.arr [])].map Prod.fst).Nodup ∧
      ("meta", JSVal.arr []) ∈ [("meta", JSVal.arr [])] ∧
      isTrueJS (keyVal JSVal.undefined "meta") = false ∧
      isObjectJS (JSVal.arr []) = true ∧ isEmptyJS (JSVal.arr []) = true) ∧
      objGet (buildAttributes (.obj [("meta", JSVal.arr [])]) .undefined
          (.obj [("meta", JSVal.num 4)]) (.obj [("meta", JSVal.num 1)]) .undefined) "meta" =
        fallbackChain (keyVal (.obj [("meta", JSVal.num 1)]) "meta")
          (keyVal JSVal.undefined "meta") (.obj []) :=
  ⟨⟨by decide, by simp, rfl, rfl, rfl⟩,
    marker_key_output [("meta", JSVal.arr [])] .undefined (.obj [("meta", JSVal.num 4)])
      (.obj [("meta", JSVal.num 1)]) .undefined "meta" (JSVal.arr [])
      (by decide) (by simp) rfl rfl rfl⟩

theorem marker_empty_value_cex :
    objGet (buildAttributes (.obj [("k", JSVal.arr [])]) (.obj []) .null (.obj []) .undefined) "k"
        = JSVal.obj [] ∧ JSVal.obj [] ≠ JSVal.arr [] := by
  constructor
  · simp [buildAttributes, buildEachField, buildKeyValue, keyVal, objGet, isObjectJS,
      isEmptyJS, isTrueJS, fallbackChain, isUndefJS, List.lookup]
  · simp

/-- C6 (amended): for an array-of-scalars schema key (the first element of the
schema array is a leaf-tag string or an empty container), when the json value
at the key is neither null nor undefined the output is `jsonVal || attrsVal`
in the JS sense: the json value when truthy, else the normalized attrs value.
An empty array is truthy in JavaScript, so `json = [...] = []` is returned
as-is and does not fall back to attrs: the concrete scenario of the claim
yields `[]`, not `attrs`. -/
theorem array_scalar_truthiness (fs : List (String × JSVal)) (d j a i : JSVal)
    (k : String) (hd : JSVal) (tl : List JSVal)
    (hnd : (fs.map Prod.fst).Nodup) (hmem : (k, .arr (hd :: tl)) ∈ fs)
    (hig : isTrueJS (keyVal i k) = false)
    (hscalar : (isStringJS hd || isEmptyJS hd) = true)
    (h1 : isNullJS (keyVal j k) = false) (h2 : isUndefJS (keyVal j k) = false) :
    objGet (buildAttributes (.obj fs) d j a i) k =
      if jsTruthy (keyVal j k) then keyVal j k else keyVal a k := by
  apply objGet_build fs d j a i k (.arr (hd :: tl)) _ hnd hmem hig
  rw [buildKeyValue_arr_cons]
  rw [if_neg (by simp [h1, h2]), if_pos hscalar]

theorem array_scalar_truthiness_witness :
    (([("tags", JSVal.arr [JSVal.str "string"])].map Prod.fst).Nodup ∧
      ("tags", JSVal.arr [JSVal.str "string"]) ∈ [("tags", JSVal.arr [JSVal.str "string"])] ∧
      isTrueJS (keyVal JSVal.undefined "tags") = false ∧
      (isStringJS (JSVal.str "string") || isEmptyJS (JSVal.str "string")) = true ∧
      isNullJS (keyVal (.obj [("tags", JSVal.arr [])]) "tags") = false ∧
      isUndefJS (keyVal (.obj [("tags", JSVal.arr [])]) "tags") = false) ∧
      objGet (buildAttributes (.obj [("tags", JSVal.arr [JSVal.str "string"])]) .undefined
          (.obj [("tags", JSVal.arr [])])
          (.obj [("tags", JSVal.arr [JSVal.str "a", JSVal.str "b"])]) .undefined) "tags" =
        if jsTruthy (keyVal (.obj [("tags", JSVal.arr [])]) "tags") then
          keyVal (.obj [("tags", JSVal.arr [])]) "tags"
        else keyVal (.obj [("tags", JSVal.arr [JSVal.str "a", JSVal.str "b"])]) "tags" :=
  ⟨⟨by decide, by simp, rfl, rfl, rfl, rfl⟩,
    array_scalar_truthiness [("tags", JSVal.arr [JSVal.str "string"])] .undefined
      (.obj [("tags", JSVal.arr [])])
      (.obj [("tags", JSVal.arr [JSVal.str "a", JSVal.str "b"])]) .undefined
      "tags" (JSVal.str "string") [] (by decide) (by simp) rfl rfl rfl rfl⟩

theorem array_scalar_empty_json_cex :
    objGet (buildAttributes (.obj [("tags", JSVal.arr [JSVal.str "string"])]) .undefined
        (.obj [("tags", JSVal.arr [])])
        (.obj [("tags", JSVal.arr [JSVal.str "a", JSVal.str "b"])]) .undefined) "tags"
      = JSVal.arr [] ∧
    JSVal.arr [] ≠ JSVal.arr [JSVal.str "a", JSVal.str "b"] := by
  constructor
  · simp [buildAttributes, buildEachField, buildKeyValue, keyVal, objGet, isObjectJS,
      isEmptyJS, isTrueJS, isNullJS, isUndefJS, isStringJS, jsTruthy, fallbackChain,
      List.lookup]
  · simp

/-- C7 (amended): for the numeric and timestamp leaf types, an empty-string
json value resets the key directly to the defaults value if defined, else the
type zero value (0 for the numeric tags, null for timestamp); the attrs value
is skipped even when it is defined (src/model.js lines 228-231, 242-245,
284-287 consult only `defaultsVal`). -/
theorem empty_string_resets_to_defaults (fs : List (String × JSVal)) (d j a i : JSVal)
    (k : String) (tag : String)
    (hnd : (fs.map Prod.fst).Nodup) (hmem : (k, .str tag) ∈ fs)
    (hig : isTrueJS (keyVal i k) = false)
    (htag : tag = "integer" ∨ tag = "uinteger" ∨ tag = "float" ∨ tag = "ufloat" ∨
      tag = "timestamp")
    (hjson : isEmptyStrJS (keyVal j k) = true) :
    objGet (buildAttributes (.obj fs) d j a i) k =
      (if !isUndefJS (keyVal d k) then keyVal d k
       else if tag = "timestamp" then .null else .num 0) := by
  apply objGet_build fs d j a i k (.str tag) _ hnd hmem hig
  rw [buildKeyValue_leaf]
  rcases htag with rfl | rfl | rfl | rfl | rfl <;>
    simp [coerceLeaf, hjson]

theorem empty_string_resets_to_defaults_witness :
    (([("n", JSVal.str "integer")].map Prod.fst).Nodup ∧
      ("n", JSVal.str "integer") ∈ [("n", JSVal.str "integer")] ∧
      isTrueJS (keyVal JSVal.undefined "n") = false ∧
      isEmptyStrJS (keyVal (.obj [("n", JSVal.str "")]) "n") = true) ∧
      objGet (buildAttributes (.obj [("n", JSVal.str "integer")])
          (.obj [("n", JSVal.num 7)]) (.obj [("n", JSVal.str "")])
          (.obj [("n", JSVal.num 5)]) .undefined) "n" =
        (if !isUndefJS (keyVal (.obj [("n", JSVal.num 7)]) "n") then
          keyVal (.obj [("n", JSVal.num 7)]) "n"
         else if "integer" = "timestamp" then .null else .num 0) :=
  ⟨⟨by decide, by simp, rfl, rfl⟩,
    empty_string_resets_to_defaults [("n", JSVal.str "integer")]
      (.obj [("n", JSVal.num 7)]) (.obj [("n", JSVal.str "")])
      (.obj [("n", JSVal.num 5)]) .undefined "n" "integer"
      (by decide) (by simp) rfl (Or.inl rfl) rfl⟩

theorem empty_string_attrs_skipped_cex :
    objGet (buildAttributes (.obj [("n", JSVal.str "integer")])
        (.obj [("n", JSVal.num 7)]) (.obj [("n", JSVal.str "")])
        (.obj [("n", JSVal.num 5)]) .undefined) "n" = JSVal.num 7 ∧
      JSVal.num 7 ≠ JSVal.num 5 := by
  constructor
  · simp [buildAttributes, buildEachField, buildKeyValue, coerceLeaf, keyVal, objGet,
      isObjectJS, isEmptyJS, isTrueJS, isNullJS, isUndefJS, isEmptyStrJS, fallbackChain,
      List.lookup]
    intro hch
    exact absurd hch (by decide)
  · simp

/-- C8: the concrete empty-string ufloat scenario: schema
`(price : ufloat)`, defaults `(price : 9.99)`, attrs `(price : 50)`, json
`(price : "")` builds to `(price : 9.99)` — the empty string bypasses the attrs
fallback and resets to the default. -/
theorem ufloat_empty_string_resets :
    buildAttributes (.obj [("price", JSVal.str "ufloat")])
        (.obj [("price", JSVal.num (999 / 100))]) (.obj [("price", JSVal.str "")])
        (.obj [("price", JSVal.num 50)]) .undefined
      = .obj [("price", JSVal.num (999 / 100))] := by
  simp [buildAttributes, buildEachField, buildKeyValue, coerceLeaf, keyVal, objGet,
    isObjectJS, isEmptyJS, isTrueJS, isNullJS, isUndefJS, isEmptyStrJS, fallbackChain,
    List.lookup]
  intro hch
  exact absurd hch (by decide)

/-- C2 (amended): when `json` is null or undefined (any non-object value
normalizes the per-key json value to `null`, src/model.js line 140), the output
at each non-ignored key follows `specNullJsonValue`: array, object,
empty-container, numeric (integer/uinteger/float/ufloat) and boolean keys
fall back to the normalized attrs value if defined, else defaults, else the
empty/zero value — but string, id, timestamp, date and unrecognized leaf keys
produce `null`, because `null` passes their validity test; they do not consult
attrs or defaults. -/
theorem null_json_output (fs : List (String × JSVal)) (d j a i : JSVal)
    (k : String) (val : JSVal)
    (hnd : (fs.map Prod.fst).Nodup) (hmem : (k, val) ∈ fs)
    (hig : isTrueJS (keyVal i k) = false)
    (hnode : isSchemaNode val = true) (hjson : isObjectJS j = false) :
    objGet (buildAttributes (.obj fs) d j a i) k =
      specNullJsonValue val (keyVal a k) (keyVal d k) := by
  apply objGet_build fs d j a i k val _ hnd hmem hig
  have hjv : keyVal j k = .null := by simp [keyVal, hjson]
  rw [hjv]
  cases val with
  | str tag =>
    rw [buildKeyValue_leaf]
    simp only [specNullJsonValue, coerceLeaf, isEmptyStrJS, isNullJS, isBooleanJS,
      isStringJS, isNumberJS, isDateJS, isObjectJS, isEmptyJS, jsParseInt, jsParseFloat,
      isValidISO8601String, Bool.and_self, Bool.not_false, Bool.not_true, Bool.and_true,
      Bool.and_false, Bool.false_and, Bool.true_and, Bool.or_false, Bool.false_or]
    split_ifs <;> simp_all
  | arr es =>
    cases es with
    | nil =>
      rw [buildKeyValue_marker (JSVal.arr []) _ _ _ _ rfl rfl]
      simp [specNullJsonValue, isObjectJS, isEmptyJS]
    | cons hd tl =>
      rw [buildKeyValue_arr_cons]
      simp [specNullJsonValue, isObjectJS, isEmptyJS, isNullJS]
  | obj vfs =>
    cases vfs with
    | nil =>
      rw [buildKeyValue_marker (JSVal.obj []) _ _ _ _ rfl rfl]
      simp [specNullJsonValue, isObjectJS, isEmptyJS]
    | cons hd tl =>
      rw [buildKeyValue_obj_null _ _ _ _ _ (by simp) (by simp [isNullJS])]
      simp [specNullJsonValue, isObjectJS, isEmptyJS]
  | null => simp [isSchemaNode] at hnode
  | undefined => simp [isSchemaNode] at hnode
  | bool b => simp [isSchemaNode] at hnode
  | num q => simp [isSchemaNode] at hnode
  | date ms => simp [isSchemaNode] at hnode

theorem null_json_output_witness :
    (([("flag", JSVal.str "boolean")].map Prod.fst).Nodup ∧
      ("flag", JSVal.str "boolean") ∈ [("flag", JSVal.str "boolean")] ∧
      isTrueJS (keyVal JSVal.undefined "flag") = false ∧
      isSchemaNode (JSVal.str "boolean") = true ∧
      isObjectJS JSVal.null = false) ∧
      objGet (buildAttributes (.obj [("flag", JSVal.str "boolean")]) .undefined .null
          (.obj [("flag", JSVal.bool true)]) .undefined) "flag" =
        specNullJsonValue (JSVal.str "boolean")
          (keyVal (.obj [("flag", JSVal.bool true)]) "flag") (keyVal JSVal.undefined "flag") :=
  ⟨⟨by decide, by simp, rfl, rfl, rfl⟩,
    null_json_output [("flag", JSVal.str "boolean")] .undefined .null
      (.obj [("flag", JSVal.bool true)]) .undefined "flag" (JSVal.str "boolean")
      (by decide) (by simp) rfl rfl rfl⟩

theorem null_json_string_leaf_cex :
    objGet (buildAttributes (.obj [("k", JSVal.str "string")]) (.obj []) .null
        (.obj [("k", JSVal.str "x")]) .undefined) "k" = JSVal.null ∧
      JSVal.null ≠ JSVal.str "x" := by
  constructor
  · simp [buildAttributes, buildEachField, buildKeyValue, coerceLeaf, keyVal, objGet,
      isObjectJS, isEmptyJS, isTrueJS, isNullJS, isUndefJS, isStringJS, isEmptyStrJS,
      fallbackChain, List.lookup]
  · simp

theorem lookup_none_of_not_mem_keys (l : List (String × JSVal)) (k : String)
    (h : k ∉ l.map Prod.fst) : List.lookup k l = none := by
  induction l with
  | nil => rfl
  | cons hd tl ih =>
    obtain ⟨k0, v0⟩ := hd
    have hk0 : k ≠ k0 := by
      intro hk
      exact h (by simp [hk])
    rw [List.lookup, beq_false_of_ne hk0]
    exact ih (fun hm => h (List.mem_cons_of_mem _ hm))

theorem lookup_append_of_none (l1 l2 : List (String × JSVal)) (k : String)
    (h : List.lookup k l1 = none) :
    List.lookup k (l1 ++ l2) = List.lookup k l2 := by
  induction l1 with
  | nil => rfl
  | cons hd tl ih =>
    obtain ⟨k0, v0⟩ := hd
    rw [List.lookup] at h
    cases hbeq : (k == k0) with
    | true => rw [hbeq] at h; simp at h
    | false =>
      rw [hbeq] at h
      rw [List.cons_append, List.lookup, hbeq]
      exact ih h

theorem lookup_append_of_some (l1 l2 : List (String × JSVal)) (k : String) (v : JSVal)
    (h : List.lookup k l1 = some v) :
    List.lookup k (l1 ++ l2) = some v := by
  induction l1 with
  | nil => simp at h
  | cons hd tl ih =>
    obtain ⟨k0, v0⟩ := hd
    rw [List.lookup] at h
    rw [List.cons_append, List.lookup]
    cases hbeq : (k == k0) with
    | true => rw [hbeq] at h; rw [h]
    | false =>
      rw [hbeq] at h
      exact ih h

theorem lookup_of_mem_nodup (l : List (String × JSVal)) (k : String) (v : JSVal)
    (hmem : (k, v) ∈ l) (hnd : (l.map Prod.fst).Nodup) : List.lookup k l = some v := by
  induction l with
  | nil => simp at hmem
  | cons hd tl ih =>
    obtain ⟨k0, v0⟩ := hd
    have hnd2 : (k0 :: tl.map Prod.fst).Nodup := by
      rw [List.map_cons] at hnd
      exact hnd
    rcases List.mem_cons.mp hmem with heq | hm2
    · have hk : k = k0 := congrArg Prod.fst heq
      have hv : v = v0 := congrArg Prod.snd heq
      subst hk
      subst hv
      simp [List.lookup]
    · have hk0 : k ≠ k0 := by
        intro hk
        subst hk
        exact (List.nodup_cons.mp hnd2).1 (List.mem_map.mpr ⟨(k, v), hm2, rfl⟩)
      rw [List.lookup, beq_false_of_ne hk0]
      exact ih hm2 (List.nodup_cons.mp hnd2).2

theorem mergeInto_nil (sf : List (String × JSVal)) : mergeInto [] sf = [] := by
  rw [mergeInto]

theorem mergeInto_keys (df sf : List (String × JSVal)) :
    (mergeInto df sf).map Prod.fst = df.map Prod.fst := by
  induction df with
  | nil => rw [mergeInto_nil]
  | cons hd tl ih =>
    obtain ⟨k0, v0⟩ := hd
    rw [mergeInto]
    simp only [List.map_cons, ih]

theorem lookup_mergeInto (df sf : List (String × JSVal)) (k : String) (w : JSVal)
    (hnd : (df.map Prod.fst).Nodup) (hmem : (k, w) ∈ df) :
    List.lookup k (mergeInto df sf) =
      some (match List.lookup k sf with
        | some sv => mergeValue w sv
        | none => w) := by
  induction df with
  | nil => simp at hmem
  | cons hd tl ih =>
    obtain ⟨k0, v0⟩ := hd
    have hnd2 : (k0 :: tl.map Prod.fst).Nodup := by
      rw [List.map_cons] at hnd
      exact hnd
    rw [mergeInto]
    rcases List.mem_cons.mp hmem with heq | hm2
    · have hk : k = k0 := congrArg Prod.fst heq
      have hv : w = v0 := congrArg Prod.snd heq
      subst hk
      subst hv
      simp [List.lookup]
    · have hk0 : k ≠ k0 := by
        intro hk
        subst hk
        exact (List.nodup_cons.mp hnd2).1 (List.mem_map.mpr ⟨(k, w), hm2, rfl⟩)
      rw [List.lookup, beq_false_of_ne hk0]
      exact ih (List.nodup_cons.mp hnd2).2 hm2

theorem mergeValue_str (d : JSVal) (t : String) :
    mergeValue d (.str t) = .str t := by
  cases d <;> rw [mergeValue] <;> simp [isUndefJS]

theorem combinedSchema_obj (df sf : List (String × JSVal)) :
    combinedSchema (.obj df) (.obj sf) = .obj (mergeFieldsJS df sf) := by
  rw [combinedSchema, mergeValue]
  simp [isUndefJS]

theorem not_any_key_iff (df : List (String × JSVal)) (k : String) :
    (!df.any (fun q => q.1 = k)) = true ↔ k ∉ df.map Prod.fst := by
  rw [Bool.not_eq_true', List.any_eq_false]
  constructor
  · intro h hk
    obtain ⟨p, hp, hpk⟩ := List.mem_map.mp hk
    have := h p hp
    simp [hpk] at this
  · intro h p hp
    simp only [decide_eq_true_eq]
    intro hpk
    exact h (List.mem_map.mpr ⟨p, hp, hpk⟩)

/-- C5 (amended): merging the model-specific schema with the base schema via
`_.merge(schema, baseSchema)` (src/model.js line 72) produces exactly the union
of the two key sets, and keys present only in the base schema receive the base
entry — but on conflict it is the BASE schema entry that appears in the result
(lodash merge copies source properties over destination ones), stated here for
base entries that are leaf-tag strings; the model-specific entry does not take
precedence. -/
theorem combinedSchema_base_precedence (df sf : List (String × JSVal))
    (hndf : (df.map Prod.fst).Nodup) (hnsf : (sf.map Prod.fst).Nodup) :
    (∀ k, k ∈ objKeys (combinedSchema (.obj df) (.obj sf)) ↔
      k ∈ df.map Prod.fst ∨ k ∈ sf.map Prod.fst) ∧
    (∀ k v, (k, v) ∈ sf → k ∉ df.map Prod.fst →
      objGet (combinedSchema (.obj df) (.obj sf)) k = v) ∧
    (∀ k v w t, (k, w) ∈ df → (k, v) ∈ sf → v = .str t →
      objGet (combinedSchema (.obj df) (.obj sf)) k = v) := by
  refine ⟨?_, ?_, ?_⟩
  · intro k
    rw [combinedSchema_obj]
    simp only [objKeys, mergeFieldsJS, List.map_append, List.mem_append, mergeInto_keys]
    constructor
    · rintro (h | h)
      · exact Or.inl h
      · obtain ⟨p, hp, hpk⟩ := List.mem_map.mp h
        exact Or.inr (List.mem_map.mpr ⟨p, List.mem_of_mem_filter hp, hpk⟩)
    · rintro (h | h)
      · exact Or.inl h
      · by_cases hdf : k ∈ df.map Prod.fst
        · exact Or.inl hdf
        · obtain ⟨p, hp, hpk⟩ := List.mem_map.mp h
          refine Or.inr (List.mem_map.mpr ⟨p, List.mem_filter.mpr ⟨hp, ?_⟩, hpk⟩)
          exact (not_any_key_iff df p.1).mpr (hpk ▸ hdf)
  · intro k v hmem hdf
    rw [combinedSchema_obj]
    simp only [objGet, mergeFieldsJS]
    have hnone : List.lookup k (mergeInto df sf) = none :=
      lookup_none_of_not_mem_keys _ _ (by rw [mergeInto_keys]; exact hdf)
    rw [lookup_append_of_none _ _ _ hnone]
    have hfmem : (k, v) ∈ sf.filter (fun p => !df.any (fun q => q.1 = p.1)) :=
      List.mem_filter.mpr ⟨hmem, (not_any_key_iff df k).mpr hdf⟩
    have hfnd : ((sf.filter (fun p => !df.any (fun q => q.1 = p.1))).map Prod.fst).Nodup :=
      List.Nodup.sublist (List.Sublist.map Prod.fst (List.filter_sublist sf)) hnsf
    rw [lookup_of_mem_nodup _ _ _ hfmem hfnd]
    rfl
  · intro k v w t hmemd hmems hv
    rw [combinedSchema_obj]
    simp only [objGet, mergeFieldsJS]
    have hmi := lookup_mergeInto df sf k w hndf hmemd
    rw [lookup_of_mem_nodup _ _ _ hmems hnsf] at hmi
    rw [lookup_append_of_some _ _ _ _ hmi]
    subst hv
    show mergeValue w (JSVal.str t) = JSVal.str t
    exact mergeValue_str w t

theorem combinedSchema_base_precedence_witness :
    (([("a", JSVal.str "string")].map Prod.fst).Nodup ∧
      ([("a", JSVal.str "integer"), ("b", JSVal.str "id")].map Prod.fst).Nodup) ∧
      ((∀ k, k ∈ objKeys (combinedSchema (.obj [("a", JSVal.str "string")])
          (.obj [("a", JSVal.str "integer"), ("b", JSVal.str "id")])) ↔
        k ∈ [("a", JSVal.str "string")].map Prod.fst ∨
          k ∈ [("a", JSVal.str "integer"), ("b", JSVal.str "id")].map Prod.fst) ∧
      (∀ k v, (k, v) ∈ [("a", JSVal.str "integer"), ("b", JSVal.str "id")] →
        k ∉ [("a", JSVal.str "string")].map Prod.fst →
        objGet (combinedSchema (.obj [("a", JSVal.str "string")])
          (.obj [("a", JSVal.str "integer"), ("b", JSVal.str "id")])) k = v) ∧
      (∀ k v w t, (k, w) ∈ [("a", JSVal.str "string")] →
        (k, v) ∈ [("a", JSVal.str "integer"), ("b", JSVal.str "id")] → v = .str t →
        objGet (combinedSchema (.obj [("a", JSVal.str "string")])
          (.obj [("a", JSVal.str "integer"), ("b", JSVal.str "id")])) k = v)) :=
  ⟨⟨by decide, by decide⟩,
    combinedSchema_base_precedence [("a", JSVal.str "string")]
      [("a", JSVal.str "integer"), ("b", JSVal.str "id")] (by decide) (by decide)⟩

theorem combinedSchema_conflict_cex :
    objGet (combinedSchema (.obj [("a", JSVal.str "string")])
        (.obj [("a", JSVal.str "integer")])) "a" = JSVal.str "integer" ∧
      JSVal.str "integer" ≠ JSVal.str "string" := by
  constructor
  · simp [combinedSchema, mergeValue, mergeFieldsJS, mergeInto, isUndefJS, objGet,
      List.lookup]
  · simp

theorem keyVal_null (k : String) : keyVal .null k = .null := rfl

theorem keyVal_non_object (x : JSVal) (k : String) (h : isObjectJS x = false) :
    keyVal x k = .null := by
  simp [keyVal, h]

theorem fallbackChain_null (z : JSVal) : fallbackChain .null .null z = .null := rfl

theorem buildAttributes_non_obj (s d j a i : JSVal) (h : ∀ gs, s ≠ JSVal.obj gs) :
    buildAttributes s d j a i = .obj [] := by
  cases s with
  | obj fs => exact absurd rfl (h fs)
  | null =>
    rw [buildAttributes]
    all_goals intros
    all_goals simp_all
  | undefined =>
    rw [buildAttributes]
    all_goals intros
    all_goals simp_all
  | bool b =>
    rw [buildAttributes]
    all_goals intros
    all_goals simp_all
  | num q =>
    rw [buildAttributes]
    all_goals intros
    all_goals simp_all
  | str s =>
    rw [buildAttributes]
    all_goals intros
    all_goals simp_all
  | arr es =>
    rw [buildAttributes]
    all_goals intros
    all_goals simp_all
  | date ms =>
    rw [buildAttributes]
    all_goals intros
    all_goals simp_all

theorem ratTrunc_intCast (n : ℤ) : ratTrunc ((n : ℤ) : ℚ) = n := by
  simp [ratTrunc, Rat.num_intCast, Rat.den_intCast]

theorem jsParseInt_intCast (n : ℤ) (hn : n.natAbs < 10 ^ 21) (hnz : n ≠ 0) :
    jsParseInt (.num ((n : ℤ) : ℚ)) = some n := by
  show some (jsNumToParsedInt ((n : ℤ) : ℚ)) = some n
  rw [jsNumToParsedInt]
  rw [if_neg (by simp [hnz] : ¬(((n : ℤ) : ℚ) = 0))]
  rw [if_pos ?_]
  · rw [ratTrunc_intCast]
  · constructor
    · rw [Rat.den_intCast, Rat.num_intCast]
      have h1 : 1 ≤ n.natAbs := Int.natAbs_pos.mpr hnz
      calc (1 : ℕ) ≤ n.natAbs := h1
        _ ≤ 10 ^ 6 * n.natAbs := Nat.le_mul_of_pos_left _ (by norm_num)
    · rw [Rat.den_intCast, Rat.num_intCast]
      simpa using hn

theorem jsParseInt_pow21_exponential :
    jsParseInt (.num ((10 ^ 21 : ℤ) : ℚ)) = some 1 := by
  decide

theorem coerceLeaf_idem (tag : String) (j o : JSVal)
    (hIF : (tag = "integer" || tag = "uinteger") = false)
    (h : coerceLeaf tag j .null .null = o) : coerceLeaf tag o .null .null = o := by
  have hI : ¬((tag = "integer" || tag = "uinteger") = true) := by
    rw [hIF]
    exact Bool.false_ne_true
  by_cases hF : (tag = "float" || tag = "ufloat") = true
  · rw [coerceLeaf, if_neg hI, if_pos hF] at h
    by_cases hes : isEmptyStrJS j = true
    · rw [if_pos hes] at h
      simp only [isUndefJS, Bool.not_false, if_true] at h
      subst h
      rw [coerceLeaf, if_neg hI, if_pos hF, if_neg (by simp [isEmptyStrJS])]
      simp [jsParseFloat, fallbackChain, isUndefJS]
    · rw [if_neg hes] at h
      cases hp : jsParseFloat j with
      | none =>
        rw [hp] at h
        rw [fallbackChain_null] at h
        subst h
        rw [coerceLeaf, if_neg hI, if_pos hF, if_neg (by simp [isEmptyStrJS])]
        simp [jsParseFloat, fallbackChain, isUndefJS]
      | some q =>
        rw [hp] at h
        have h2 : (if tag = "ufloat" then JSVal.num (max q 0)
            else JSVal.num q) = o := h
        by_cases hu : tag = "ufloat"
        · rw [if_pos hu] at h2
          subst h2
          rw [coerceLeaf, if_neg hI, if_pos hF, if_neg (by simp [isEmptyStrJS])]
          have hpf : jsParseFloat (JSVal.num (max q 0)) = some (max q 0) := rfl
          rw [hpf]
          show (if tag = "ufloat" then JSVal.num (max (max q 0) 0)
              else JSVal.num (max q 0)) = JSVal.num (max q 0)
          rw [if_pos hu, max_assoc, max_self]
        · rw [if_neg hu] at h2
          subst h2
          rw [coerceLeaf, if_neg hI, if_pos hF, if_neg (by simp [isEmptyStrJS])]
          have hpf : jsParseFloat (JSVal.num q) = some q := rfl
          rw [hpf]
          show (if tag = "ufloat" then JSVal.num (max q 0) else JSVal.num q)
            = JSVal.num q
          rw [if_neg hu]
  · by_cases hB : tag = "boolean"
    · rw [coerceLeaf, if_neg hI, if_neg hF, if_pos hB] at h
      by_cases hbj : isBooleanJS j = true
      · rw [if_neg (by simp [hbj])] at h
        subst h
        rw [coerceLeaf, if_neg hI, if_neg hF, if_pos hB, if_neg (by simp [hbj])]
      · rw [if_pos (by simp [Bool.not_eq_true] at hbj; simp [hbj])] at h
        rw [fallbackChain_null] at h
        subst h
        rw [coerceLeaf, if_neg hI, if_neg hF, if_pos hB,
          if_pos (by simp [isBooleanJS])]
        exact fallbackChain_null _
    · by_cases hID : tag = "id"
      · rw [coerceLeaf, if_neg hI, if_neg hF, if_neg hB, if_pos hID] at h
        by_cases hok : (!isStringJS j && !isNullJS j) = true
        · rw [if_pos hok] at h
          rw [fallbackChain_null] at h
          subst h
          rw [coerceLeaf, if_neg hI, if_neg hF, if_neg hB, if_pos hID,
            if_neg (by simp [isStringJS, isNullJS])]
        · rw [if_neg hok] at h
          subst h
          rw [coerceLeaf, if_neg hI, if_neg hF, if_neg hB, if_pos hID, if_neg hok]
      · by_cases hS : tag = "string"
        · rw [coerceLeaf, if_neg hI, if_neg hF, if_neg hB, if_neg hID, if_pos hS] at h
          by_cases hok : (!isStringJS j && !isNullJS j) = true
          · rw [if_pos hok] at h
            rw [fallbackChain_null] at h
            subst h
            rw [coerceLeaf, if_neg hI, if_neg hF, if_neg hB, if_neg hID, if_pos hS,
              if_neg (by simp [isStringJS, isNullJS])]
          · rw [if_neg hok] at h
            subst h
            rw [coerceLeaf, if_neg hI, if_neg hF, if_neg hB, if_neg hID, if_pos hS,
              if_neg hok]
        · by_cases hT : tag = "timestamp"
          · rw [coerceLeaf, if_neg hI, if_neg hF, if_neg hB, if_neg hID, if_neg hS,
              if_pos hT] at h
            by_cases hes : isEmptyStrJS j = true
            · rw [if_pos hes] at h
              simp only [isUndefJS, Bool.not_false, if_true] at h
              subst h
              rw [coerceLeaf, if_neg hI, if_neg hF, if_neg hB, if_neg hID, if_neg hS,
                if_pos hT, if_neg (by simp [isEmptyStrJS]),
                if_neg (by simp [isNumberJS, isNullJS])]
            · rw [if_neg hes] at h
              by_cases hok : (!isNumberJS j && !isNullJS j) = true
              · rw [if_pos hok] at h
                rw [fallbackChain_null] at h
                subst h
                rw [coerceLeaf, if_neg hI, if_neg hF, if_neg hB, if_neg hID, if_neg hS,
                  if_pos hT, if_neg (by simp [isEmptyStrJS]),
                  if_neg (by simp [isNumberJS, isNullJS])]
              · rw [if_neg hok] at h
                subst h
                rw [coerceLeaf, if_neg hI, if_neg hF, if_neg hB, if_neg hID, if_neg hS,
                  if_pos hT]
                have hjes : isEmptyStrJS j = false := Bool.not_eq_true _ ▸ hes
                rw [if_neg (by rw [hjes]; exact Bool.false_ne_true), if_neg hok]
          · by_cases hD : tag = "date"
            · rw [coerceLeaf, if_neg hI, if_neg hF, if_neg hB, if_neg hID, if_neg hS,
                if_neg hT, if_pos hD] at h
              by_cases hok :
                  (!isValidISO8601String j && !isDateJS j && !isNullJS j) = true
              · rw [if_pos hok] at h
                rw [fallbackChain_null] at h
                subst h
                rw [coerceLeaf, if_neg hI, if_neg hF, if_neg hB, if_neg hID, if_neg hS,
                  if_neg hT, if_pos hD,
                  if_neg (by simp [isValidISO8601String, isDateJS, isNullJS])]
              · rw [if_neg hok] at h
                subst h
                rw [coerceLeaf, if_neg hI, if_neg hF, if_neg hB, if_neg hID, if_neg hS,
                  if_neg hT, if_pos hD, if_neg hok]
            · rw [coerceLeaf, if_neg hI, if_neg hF, if_neg hB, if_neg hID, if_neg hS,
                if_neg hT, if_neg hD] at h
              subst h
              rw [coerceLeaf, if_neg hI, if_neg hF, if_neg hB, if_neg hID, if_neg hS,
                if_neg hT, if_neg hD]

theorem buildEachField_congr_json (fs : List (String × JSVal)) (j1 j2 : JSVal)
    (h : ∀ p ∈ fs, buildKeyValue p.2 .null (keyVal j1 p.1) .null .null
        = buildKeyValue p.2 .null (keyVal j2 p.1) .null .null) :
    buildEachField fs .null j1 .null .null = buildEachField fs .null j2 .null .null := by
  induction fs with
  | nil => rw [buildEachField_nil, buildEachField_nil]
  | cons hd rest ih =>
    obtain ⟨k, val⟩ := hd
    rw [buildEachField_cons, buildEachField_cons, keyVal_null]
    rw [h (k, val) (List.mem_cons_self ..)]
    rw [ih (fun p hp => h p (List.mem_cons_of_mem _ hp))]

theorem buildEachField_ne_nil (fs : List (String × JSVal)) (j : JSVal) (hne : fs ≠ [])
    (hleg : ∀ p ∈ fs, isSchemaNode p.2 = true) :
    buildEachField fs .null j .null .null ≠ [] := by
  cases fs with
  | nil => exact absurd rfl hne
  | cons hd rest =>
    obtain ⟨k, val⟩ := hd
    rw [buildEachField_cons, keyVal_null]
    rw [if_neg (by simp [isTrueJS])]
    cases hbk : buildKeyValue val .null (keyVal j k) .null .null with
    | none =>
      have hs := buildKeyValue_isSome val .null (keyVal j k) .null .null
        (hleg (k, val) (List.mem_cons_self ..))
      rw [hbk] at hs
      simp at hs
    | some w => simp

theorem collValues_ne_nil (j : JSVal) (h1 : isNullJS j = false) (h2 : isUndefJS j = false)
    (h3 : isEmptyJS j = false) : collValues j ≠ [] := by
  cases j with
  | null => simp [isNullJS] at h1
  | undefined => simp [isUndefJS] at h2
  | bool b => simp [isEmptyJS] at h3
  | num q => simp [isEmptyJS] at h3
  | date ms => simp [isEmptyJS] at h3
  | arr es =>
    cases es with
    | nil => simp [isEmptyJS] at h3
    | cons x xs => simp [collValues]
  | obj fs =>
    cases fs with
    | nil => simp [isEmptyJS] at h3
    | cons p ps => simp [collValues]
  | str s =>
    intro habs
    simp only [collValues, List.map_eq_nil_iff] at habs
    have hstr : s = "" := by
      cases s with
      | mk data =>
        have : data = [] := habs
        rw [this]
    rw [hstr] at h3
    exact absurd h3 (by decide)

theorem buildArrayItems_nil (h d a i : JSVal) : buildArrayItems h d [] a i = [] := by
  rw [buildArrayItems]

theorem buildArrayItems_cons (h d x : JSVal) (xs : List JSVal) (a i : JSVal) :
    buildArrayItems h d (x :: xs) a i =
      buildAttributes h d x a i :: buildArrayItems h d xs a i := by
  rw [buildArrayItems]

theorem buildArrayItems_ne_nil (h d a i : JSVal) (xs : List JSVal) (hne : xs ≠ []) :
    buildArrayItems h d xs a i ≠ [] := by
  cases xs with
  | nil => exact absurd rfl hne
  | cons x rest => rw [buildArrayItems_cons]; simp

theorem buildArrayItems_idem (hd : JSVal)
    (hidem : ∀ x, buildAttributes hd .null (buildAttributes hd .null x .null .null) .null .null
        = buildAttributes hd .null x .null .null) (xs : List JSVal) :
    buildArrayItems hd .null (buildArrayItems hd .null xs .null .null) .null .null
      = buildArrayItems hd .null xs .null .null := by
  induction xs with
  | nil => rw [buildArrayItems_nil, buildArrayItems_nil]
  | cons x rest ih => rw [buildArrayItems_cons, buildArrayItems_cons, hidem x, ih]

theorem buildKeyValue_obj_empty (vfs : List (String × JSVal)) (dv jv av iv : JSVal)
    (hne : vfs ≠ [])
    (h1 : isNullJS jv = false) (h2 : isUndefJS jv = false) (h3 : isEmptyJS jv = true) :
    buildKeyValue (.obj vfs) dv jv av iv = some (if !isUndefJS dv then dv else .obj []) := by
  rw [buildKeyValue]
  have hemp : isEmptyJS (.obj vfs) = false := by
    cases vfs with
    | nil => exact absurd rfl hne
    | cons hd tl => simp [isEmptyJS]
  simp [isObjectJS, hemp, h1, h2, h3]

theorem buildEachField_idem_core (fs : List (String × JSVal)) (j : JSVal)
    (hnd : (fs.map Prod.fst).Nodup)
    (hlegs : ∀ p ∈ fs, legalSchemaVal p.2 = true)
    (IH : ∀ p ∈ fs, ∀ j2 o, buildKeyValue p.2 .null j2 .null .null = some o →
        buildKeyValue p.2 .null o .null .null = some o) :
    buildEachField fs .null (.obj (buildEachField fs .null j .null .null)) .null .null
      = buildEachField fs .null j .null .null := by
  apply buildEachField_congr_json
  intro p hp
  obtain ⟨k, val⟩ := p
  have hnode : isSchemaNode val = true := isSchemaNode_of_legal _ (hlegs (k, val) hp)
  have hsome := buildKeyValue_isSome val .null (keyVal j k) .null .null hnode
  obtain ⟨w, hw⟩ := Option.isSome_iff_exists.mp hsome
  have hbk : buildKeyValue val (keyVal (JSVal.null) k) (keyVal j k)
      (keyVal (JSVal.null) k) (keyVal (JSVal.null) k) = some w := by
    rw [keyVal_null]
    exact hw
  have hlk := lookup_buildEachField fs .null j .null .null k val w hnd hp rfl hbk
  have hkv : keyVal (.obj (buildEachField fs .null j .null .null)) k = w := by
    show objGet (.obj (buildEachField fs .null j .null .null)) k = w
    simp only [objGet]
    rw [hlk]
    rfl
  rw [hkv, hw]
  exact IH (k, val) hp (keyVal j k) w hw

theorem buildAttributes_idem_core (s : JSVal) (hleg : legalSchemaVal s = true)
    (hfree : intFreeSchemaVal s = true)
    (IH : ∀ v, sizeOf v < sizeOf s → legalSchemaVal v = true →
        intFreeSchemaVal v = true →
        ∀ j2 o, buildKeyValue v .null j2 .null .null = some o →
          buildKeyValue v .null o .null .null = some o)
    (j : JSVal) :
    buildAttributes s .null (buildAttributes s .null j .null .null) .null .null
      = buildAttributes s .null j .null .null := by
  cases s with
  | obj fs =>
    rw [buildAttributes_obj, buildAttributes_obj]
    obtain ⟨hnd, hlegs⟩ := (legalSchemaVal_obj_iff fs).mp hleg
    have hfrees := (intFreeSchemaVal_obj_iff fs).mp hfree
    have hcore := buildEachField_idem_core fs j hnd hlegs ?_
    · rw [hcore]
    · intro p hp j2 o hb
      refine IH p.2 ?_ (hlegs p hp) (hfrees p hp) j2 o hb
      have h1 := List.sizeOf_lt_of_mem hp
      obtain ⟨k, v⟩ := p
      simp_all
      omega
  | null =>
    rw [buildAttributes_non_obj _ .null j .null .null (fun gs h => JSVal.noConfusion h),
      buildAttributes_non_obj _ .null (.obj []) .null .null (fun gs h => JSVal.noConfusion h)]
  | undefined =>
    rw [buildAttributes_non_obj _ .null j .null .null (fun gs h => JSVal.noConfusion h),
      buildAttributes_non_obj _ .null (.obj []) .null .null (fun gs h => JSVal.noConfusion h)]
  | bool b =>
    rw [buildAttributes_non_obj _ .null j .null .null (fun gs h => JSVal.noConfusion h),
      buildAttributes_non_obj _ .null (.obj []) .null .null (fun gs h => JSVal.noConfusion h)]
  | num q =>
    rw [buildAttributes_non_obj _ .null j .null .null (fun gs h => JSVal.noConfusion h),
      buildAttributes_non_obj _ .null (.obj []) .null .null (fun gs h => JSVal.noConfusion h)]
  | str t =>
    rw [buildAttributes_non_obj _ .null j .null .null (fun gs h => JSVal.noConfusion h),
      buildAttributes_non_obj _ .null (.obj []) .null .null (fun gs h => JSVal.noConfusion h)]
  | arr es =>
    rw [buildAttributes_non_obj _ .null j .null .null (fun gs h => JSVal.noConfusion h),
      buildAttributes_non_obj _ .null (.obj []) .null .null (fun gs h => JSVal.noConfusion h)]
  | date ms =>
    rw [buildAttributes_non_obj _ .null j .null .null (fun gs h => JSVal.noConfusion h),
      buildAttributes_non_obj _ .null (.obj []) .null .null (fun gs h => JSVal.noConfusion h)]

theorem buildKeyValue_idem_aux : ∀ n : ℕ, ∀ val : JSVal, sizeOf val ≤ n →
    legalSchemaVal val = true → intFreeSchemaVal val = true →
    ∀ j o, buildKeyValue val .null j .null .null = some o →
      buildKeyValue val .null o .null .null = some o := by
  intro n
  induction n with
  | zero =>
    intro val hsz
    exfalso
    have hpos : 0 < sizeOf val := by cases val <;> simp_arith
    omega
  | succ n ihn =>
    intro val hsz hleg hfree j o hb
    cases val with
    | null => simp [legalSchemaVal] at hleg
    | undefined => simp [legalSchemaVal] at hleg
    | bool b => simp [legalSchemaVal] at hleg
    | num q => simp [legalSchemaVal] at hleg
    | date ms => simp [legalSchemaVal] at hleg
    | str tag =>
      rw [buildKeyValue_leaf] at hb ⊢
      injection hb with hb2
      have hIF : (tag = "integer" || tag = "uinteger") = false := by
        rw [intFreeSchemaVal] at hfree
        cases hb3 : (tag = "integer" || tag = "uinteger") with
        | false => rfl
        | true =>
          rw [hb3] at hfree
          simp at hfree
      rw [coerceLeaf_idem tag j o hIF hb2]
    | arr es =>
      cases es with
      | nil =>
        rw [buildKeyValue_marker (JSVal.arr []) _ _ _ _ rfl rfl] at hb ⊢
        rw [fallbackChain_null] at hb ⊢
        exact hb
      | cons hd tl =>
        rw [buildKeyValue_arr_cons] at hb
        injection hb with hb2
        by_cases hnl : (isNullJS j || isUndefJS j) = true
        · rw [if_pos hnl, fallbackChain_null] at hb2
          subst hb2
          rw [buildKeyValue_arr_cons, if_pos (by simp [isNullJS]), fallbackChain_null]
        · simp only [Bool.or_eq_true, not_or, Bool.not_eq_true] at hnl
          obtain ⟨hjn, hju⟩ := hnl
          rw [if_neg (by simp [hjn, hju])] at hb2
          by_cases hsc : (isStringJS hd || isEmptyJS hd) = true
          · rw [if_pos hsc] at hb2
            by_cases htr : jsTruthy j = true
            · rw [if_pos htr] at hb2
              subst hb2
              rw [buildKeyValue_arr_cons, if_neg (by simp [hjn, hju]), if_pos hsc,
                if_pos htr]
            · rw [if_neg htr] at hb2
              subst hb2
              rw [buildKeyValue_arr_cons, if_pos (by simp [isNullJS]), fallbackChain_null]
          · rw [if_neg hsc] at hb2
            by_cases hje : isEmptyJS j = true
            · rw [if_pos hje] at hb2
              simp only [isUndefJS, Bool.not_false, if_true] at hb2
              subst hb2
              rw [buildKeyValue_arr_cons, if_pos (by simp [isNullJS]), fallbackChain_null]
            · rw [if_neg hje] at hb2
              subst hb2
              have hne : collValues j ≠ [] :=
                collValues_ne_nil j hjn hju (Bool.not_eq_true _ ▸ hje)
              have hms : buildArrayItems hd .null (collValues j) .null .null ≠ [] :=
                buildArrayItems_ne_nil hd .null .null .null _ hne
              rw [buildKeyValue_arr_cons]
              rw [if_neg (by simp [isNullJS, isUndefJS])]
              rw [if_neg hsc]
              rw [if_neg (by simp [isEmptyJS, List.isEmpty_iff, hms])]
              have hcv : collValues (.arr (buildArrayItems hd .null (collValues j) .null .null))
                  = buildArrayItems hd .null (collValues j) .null .null := rfl
              rw [hcv]
              have hlhd : legalSchemaVal hd = true :=
                (legalSchemaVal_arr_iff (hd :: tl)).mp hleg hd (List.mem_cons_self ..)
              have hfhd : intFreeSchemaVal hd = true :=
                (intFreeSchemaVal_arr_iff (hd :: tl)).mp hfree hd (List.mem_cons_self ..)
              have hidem : ∀ x,
                  buildAttributes hd .null (buildAttributes hd .null x .null .null) .null .null
                    = buildAttributes hd .null x .null .null := by
                intro x
                apply buildAttributes_idem_core hd hlhd hfhd ?_ x
                intro v hv hlegv hfv j2 o2 hbv
                refine ihn v ?_ hlegv hfv j2 o2 hbv
                have hsz2 : sizeOf hd < sizeOf (JSVal.arr (hd :: tl)) := by
                  simp_arith
                omega
              rw [buildArrayItems_idem hd hidem (collValues j)]
    | obj vfs =>
      cases vfs with
      | nil =>
        rw [buildKeyValue_marker (JSVal.obj []) _ _ _ _ rfl rfl] at hb ⊢
        rw [fallbackChain_null] at hb ⊢
        exact hb
      | cons p rest =>
        by_cases hnl : (isNullJS j || isUndefJS j) = true
        · rw [buildKeyValue_obj_null _ _ _ _ _ (by simp) hnl] at hb
          injection hb with hb2
          rw [fallbackChain_null] at hb2
          subst hb2
          rw [buildKeyValue_obj_null _ _ _ _ _ (by simp) (by simp [isNullJS]),
            fallbackChain_null]
        · simp only [Bool.or_eq_true, not_or, Bool.not_eq_true] at hnl
          obtain ⟨hjn, hju⟩ := hnl
          by_cases hje : isEmptyJS j = true
          · rw [buildKeyValue_obj_empty _ _ _ _ _ (by simp) hjn hju hje] at hb
            injection hb with hb2
            simp only [isUndefJS, Bool.not_false, if_true] at hb2
            subst hb2
            rw [buildKeyValue_obj_null _ _ _ _ _ (by simp) (by simp [isNullJS]),
              fallbackChain_null]
          · rw [buildKeyValue_obj_rec _ _ _ _ _ (by simp) hjn hju
              (Bool.not_eq_true _ ▸ hje)] at hb
            injection hb with hb2
            subst hb2
            obtain ⟨hnd, hlegs⟩ := (legalSchemaVal_obj_iff (p :: rest)).mp hleg
            have hfrees := (intFreeSchemaVal_obj_iff (p :: rest)).mp hfree
            have hFne : buildEachField (p :: rest) .null j .null .null ≠ [] :=
              buildEachField_ne_nil _ j (by simp)
                (fun q hq => isSchemaNode_of_legal _ (hlegs q hq))
            rw [buildAttributes_obj]
            rw [buildKeyValue_obj_rec (p :: rest) .null
              (.obj (buildEachField (p :: rest) .null j .null .null)) .null .null
              (by simp) rfl rfl (by simp [isEmptyJS, List.isEmpty_iff, hFne])]
            rw [buildAttributes_obj]
            have hcore := buildEachField_idem_core (p :: rest) j hnd hlegs ?_
            · rw [hcore]
            · intro q hq j2 o2 hbv
              refine ihn q.2 ?_ (hlegs q hq) (hfrees q hq) j2 o2 hbv
              have h1 := List.sizeOf_lt_of_mem hq
              obtain ⟨k2, v2⟩ := q
              simp_all
              omega

theorem buildEachField_null_inputs (fs : List (String × JSVal)) (D J A M : JSVal)
    (hD : isObjectJS D = false) (hA : isObjectJS A = false) (hM : isObjectJS M = false) :
    buildEachField fs D J A M = buildEachField fs .null J .null .null := by
  induction fs with
  | nil => rw [buildEachField_nil, buildEachField_nil]
  | cons hd rest ih =>
    obtain ⟨k, val⟩ := hd
    rw [buildEachField_cons, buildEachField_cons]
    rw [keyVal_non_object D k hD, keyVal_non_object A k hA, keyVal_non_object M k hM,
      keyVal_null]
    rw [ih]

/-- C3 (amended): `buildAttributes` is idempotent in its json argument when
the defaults, attrs and mask arguments are not objects (so every per-key
fallback normalizes to `null`) and the schema contains no `integer` or
`uinteger` leaf, for every deeply legal schema: re-normalizing
already-normalized output is then a no-op. Both restrictions are necessary.
With object attrs or defaults a numeric key whose fallback value is a
non-normalized number (for example attrs `-5` at a uinteger key) changes again
on the second pass. And at an integer or uinteger key, `_.parseInt` round-trips
through `String()`, which renders magnitudes at or above 1e21 exponentially, so
a first-pass value such as 1e21 re-parses to 1 even with null fallbacks
(`jsNumToParsedInt`); float keys are safe because `parseFloat` reads the
exponential rendering in full. -/
theorem buildAttributes_idempotent (s D J A M : JSVal)
    (hleg : legalSchemaVal s = true) (hfree : intFreeSchemaVal s = true)
    (hD : isObjectJS D = false) (hA : isObjectJS A = false) (hM : isObjectJS M = false) :
    buildAttributes s D (buildAttributes s D J A M) A M = buildAttributes s D J A M := by
  cases s with
  | obj fs =>
    rw [buildAttributes_obj, buildAttributes_obj]
    rw [buildEachField_null_inputs fs D J A M hD hA hM]
    rw [buildEachField_null_inputs fs D
      (.obj (buildEachField fs .null J .null .null)) A M hD hA hM]
    obtain ⟨hnd, hlegs⟩ := (legalSchemaVal_obj_iff fs).mp hleg
    have hfrees := (intFreeSchemaVal_obj_iff fs).mp hfree
    have hcore := buildEachField_idem_core fs J hnd hlegs ?_
    · rw [hcore]
    · intro p hp j2 o hb
      exact buildKeyValue_idem_aux (sizeOf p.2) p.2 le_rfl (hlegs p hp)
        (hfrees p hp) j2 o hb
  | null =>
    rw [buildAttributes_non_obj _ D J A M (fun gs h => JSVal.noConfusion h),
      buildAttributes_non_obj _ D (.obj []) A M (fun gs h => JSVal.noConfusion h)]
  | undefined =>
    rw [buildAttributes_non_obj _ D J A M (fun gs h => JSVal.noConfusion h),
      buildAttributes_non_obj _ D (.obj []) A M (fun gs h => JSVal.noConfusion h)]
  | bool b =>
    rw [buildAttributes_non_obj _ D J A M (fun gs h => JSVal.noConfusion h),
      buildAttributes_non_obj _ D (.obj []) A M (fun gs h => JSVal.noConfusion h)]
  | num q =>
    rw [buildAttributes_non_obj _ D J A M (fun gs h => JSVal.noConfusion h),
      buildAttributes_non_obj _ D (.obj []) A M (fun gs h => JSVal.noConfusion h)]
  | str t =>
    rw [buildAttributes_non_obj _ D J A M (fun gs h => JSVal.noConfusion h),
      buildAttributes_non_obj _ D (.obj []) A M (fun gs h => JSVal.noConfusion h)]
  | arr es =>
    rw [buildAttributes_non_obj _ D J A M (fun gs h => JSVal.noConfusion h),
      buildAttributes_non_obj _ D (.obj []) A M (fun gs h => JSVal.noConfusion h)]
  | date ms =>
    rw [buildAttributes_non_obj _ D J A M (fun gs h => JSVal.noConfusion h),
      buildAttributes_non_obj _ D (.obj []) A M (fun gs h => JSVal.noConfusion h)]

theorem buildAttributes_idempotent_witness :
    (legalSchemaVal (.obj [("f", JSVal.str "float"),
        ("o", JSVal.obj [("x", JSVal.str "string")])]) = true ∧
      intFreeSchemaVal (.obj [("f", JSVal.str "float"),
        ("o", JSVal.obj [("x", JSVal.str "string")])]) = true ∧
      isObjectJS JSVal.null = false) ∧
      buildAttributes (.obj [("f", JSVal.str "float"),
          ("o", JSVal.obj [("x", JSVal.str "string")])]) .null
        (buildAttributes (.obj [("f", JSVal.str "float"),
            ("o", JSVal.obj [("x", JSVal.str "string")])]) .null
          (.obj [("f", JSVal.str "2.5"), ("o", JSVal.obj [("x", JSVal.num 3)])])
          .null .null)
        .null .null =
      buildAttributes (.obj [("f", JSVal.str "float"),
          ("o", JSVal.obj [("x", JSVal.str "string")])]) .null
        (.obj [("f", JSVal.str "2.5"), ("o", JSVal.obj [("x", JSVal.num 3)])])
        .null .null :=
  ⟨⟨by simp [legalSchemaVal], by simp [intFreeSchemaVal], rfl⟩,
    buildAttributes_idempotent (.obj [("f", JSVal.str "float"),
        ("o", JSVal.obj [("x", JSVal.str "string")])]) .null
      (.obj [("f", JSVal.str "2.5"), ("o", JSVal.obj [("x", JSVal.num 3)])]) .null .null
      (by simp [legalSchemaVal]) (by simp [intFreeSchemaVal]) rfl rfl rfl⟩

theorem buildAttributes_idempotent_cex :
    buildAttributes (.obj [("n", JSVal.str "uinteger")]) (.obj [])
        (buildAttributes (.obj [("n", JSVal.str "uinteger")]) (.obj [])
          (.obj [("n", JSVal.str "x")]) (.obj [("n", JSVal.num (-5 : ℚ))]) .undefined)
        (.obj [("n", JSVal.num (-5 : ℚ))]) .undefined
      ≠ buildAttributes (.obj [("n", JSVal.str "uinteger")]) (.obj [])
          (.obj [("n", JSVal.str "x")]) (.obj [("n", JSVal.num (-5 : ℚ))]) .undefined := by
  have hpx : jsParseInt (JSVal.str "x") = none := by decide
  have hxe : "x".isEmpty = false := by decide
  have hp5 : jsParseInt (JSVal.num (-5 : ℚ)) = some (-5) := by
    have hc : ((-5 : ℤ) : ℚ) = (-5 : ℚ) := by norm_num
    rw [← hc]
    show some (ratTrunc ((-5 : ℤ) : ℚ)) = some (-5 : ℤ)
    rw [ratTrunc_intCast]
  simp [buildAttributes, buildEachField, buildKeyValue, coerceLeaf, keyVal, objGet,
    isObjectJS, isEmptyJS, isTrueJS, isNullJS, isUndefJS, isEmptyStrJS, fallbackChain,
    List.lookup, hpx, hp5, hxe]
